import Mathlib

/-!
Shallow embedding of `extract_files.py` (MoodleBackupToFolderDownload).

The script reads `files.xml` into a mapping contextid ↦ (contenthash,
extension), then walks `./sections/*/section.xml`, resolves each
comma-separated sequence id against `./activities/resource_<id>/resource.xml`
or `./activities/page_<id>/page.xml`, looks the record's contextid up in the
mapping and copies the blob `./files/<hash[:2]>/<hash>` to
`./output/<NN Chapter name>/<NN name.ext>`.

Python strings are modelled as Lean `String`; where character-level reasoning
is needed the embedding works on `String.data`.  Python `None`-able XML text
is `Option String`; an element that may be absent is one more `Option` layer.
An uncaught Python exception is `Except.error ()`.
-/

/-- Characters removed by Python `str.strip()` with no argument. -/
def isPySpace (c : Char) : Bool :=
  c = ' ' || c = '\t' || c = '\n' || c = '\r' || c = '\x0b' || c = '\x0c'

/-- Python `s.strip()`. -/
def pyStrip (s : String) : String :=
  String.mk (((s.data.dropWhile isPySpace).reverse.dropWhile isPySpace).reverse)

/-- Python `str.split(sep)` for a one-character separator, on char lists.
`splitList c l` is never empty. -/
def splitList (c : Char) : List Char → List (List Char)
  | [] => [[]]
  | x :: xs =>
    let r := splitList c xs
    if x = c then [] :: r
    else
      match r with
      | [] => [[x]]
      | y :: ys => (x :: y) :: ys

/-- Python `s.split(c)` on strings. -/
def pySplit (c : Char) (s : String) : List String :=
  (splitList c s.data).map String.mk

/-- Python `s.split(c)[0]`: the part before the first occurrence of `c`. -/
def firstField (c : Char) (s : String) : String :=
  (pySplit c s).headD ""

/-- Python `s.split(c)[-1]` as a char list: the part after the last
occurrence of `c` (the whole list when `c` does not occur). -/
def lastFieldChars (c : Char) (l : List Char) : List Char :=
  (splitList c l).getLastD []

/-- Python `p.startswith(q)`-style test via char lists. -/
def pyStartswith (q s : String) : Bool :=
  List.isPrefixOf q.data s.data

/-- Python `s.endswith(q)`-style test via char lists. -/
def pyEndswith (q s : String) : Bool :=
  List.isSuffixOf q.data s.data

/-- Characters replaced by `sanitize_filename` (the regex class). -/
def isBadChar (c : Char) : Bool :=
  c = '\\' || c = '/' || c = ':' || c = '"' || c = '*' || c = '?' ||
  c = '<' || c = '>' || c = '|'

/-- Collapses each maximal run of bad characters to one underscore; the flag
records whether the previous character was part of such a run. -/
def sanitizeAux : Bool → List Char → List Char
  | _, [] => []
  | prevBad, c :: rest =>
    if isBadChar c then
      if prevBad then sanitizeAux true rest
      else '_' :: sanitizeAux true rest
    else c :: sanitizeAux false rest

/-- Embedding of `sanitize_filename`: the regex sub replaces every maximal
run of the forbidden characters with a single underscore. -/
def sanitize_filename (s : String) : String :=
  String.mk (sanitizeAux false s.data)

/-- Decimal digits of `n` accumulated most-significant first; the first
argument is fuel (any fuel at least `n` is enough). -/
def decAux : Nat → Nat → List Char → List Char
  | 0, _, acc => acc
  | fuel + 1, n, acc =>
    if n = 0 then acc
    else decAux fuel (n / 10) (Nat.digitChar (n % 10) :: acc)

/-- Embedding of the Python format `f"{n:02d}"` for a natural number:
decimal digits, left-padded with a zero to at least two characters. -/
def fmt02d (n : Nat) : String :=
  let ds := if n = 0 then ['0'] else decAux n n []
  String.mk (if ds.length = 1 then '0' :: ds else ds)

/-- Embedding of `f"{m:02d}"` for an `Int` (a negative section number keeps
its sign; its digit part is never padded since sign plus digits already fill
the width). -/
def fmt02dInt (m : Int) : String :=
  if 0 ≤ m then fmt02d m.toNat
  else "-" ++ String.mk (decAux m.natAbs m.natAbs [])

/-- Model of Python `int(s)` on an already-stripped string: optional sign
followed by a nonempty run of decimal digits; anything else raises
`ValueError`, modelled as `none`. -/
def pyInt (s : String) : Option Int :=
  let digitsVal : List Char → Int :=
    fun ds => ds.foldl (fun a c => a * 10 + (Int.ofNat (c.toNat - '0'.toNat))) 0
  match s.data with
  | [] => none
  | '-' :: ds =>
    if ds ≠ [] ∧ ds.all (fun c => c.isDigit) then some (-(digitsVal ds)) else none
  | '+' :: ds =>
    if ds ≠ [] ∧ ds.all (fun c => c.isDigit) then some (digitsVal ds) else none
  | ds =>
    if ds.all (fun c => c.isDigit) then some (digitsVal ds) else none

/-- Python `x.strip() if x else ""` on a `None`-able string. -/
def optText (o : Option String) : String :=
  match o with
  | some t => if t = "" then "" else pyStrip t
  | none => ""

/-- Python `x.strip() if x else d` with a default literal `d`. -/
def optTextD (d : String) (o : Option String) : String :=
  match o with
  | some t => if t = "" then d else pyStrip t
  | none => d

/-- One `<file>` element of `files.xml`: for each child element, `none`
means the element is absent, `some none` that it is present with no text. -/
structure FileElem where
  contextid : Option (Option String)
  contenthash : Option (Option String)
  filename : Option (Option String)
deriving DecidableEq, Repr

/-- The mapping built by `parse_files_xml`: association list in insertion
order, keys unique (contextid ↦ (contenthash, extension)). -/
abbrev BlobIndex := List (String × String × String)

/-- Python dict lookup on the association list. -/
def lookupCtx (k : String) : BlobIndex → Option (String × String)
  | [] => none
  | (k2, h, e) :: rest => if k2 = k then some (h, e) else lookupCtx k rest

/-- Body of the `for file_elem in root.findall("file")` loop, up to the dict
insertion: `ok none` means the entry is skipped, `ok (some (c, h, e))` that
it is a candidate for insertion, `error` that the iteration raises
(`contextid_elem.text.strip()` with text `None` is an `AttributeError`). -/
def entryStep (f : FileElem) : Except Unit (Option (String × String × String)) :=
  match f.contextid, f.contenthash, f.filename with
  | some ctxT, some chT, some fnT =>
    match ctxT with
    | none => .error ()
    | some ctxS =>
      let contextid := pyStrip ctxS
      let contenthash := optText chT
      let filename := optText fnT
      if contenthash = "" ∨ filename = "." ∨ filename = "" then .ok none
      else
        let extension :=
          if filename.data.contains '.' then
            String.mk (lastFieldChars '.' filename.data)
          else ""
        if extension ≠ "" then .ok (some (contextid, contenthash, extension))
        else .ok none
  | _, _, _ => .ok none

/-- The loop of `parse_files_xml`: inserts each candidate whose contextid is
not yet a key (Python `contextid not in files_by_contextid`), appending to
preserve insertion order. -/
def buildIndex : List FileElem → BlobIndex → Except Unit BlobIndex
  | [], acc => .ok acc
  | f :: rest, acc =>
    match entryStep f with
    | .error e => .error e
    | .ok none => buildIndex rest acc
    | .ok (some (c, h, e)) =>
      if (lookupCtx c acc).isSome then buildIndex rest acc
      else buildIndex rest (acc ++ [(c, h, e)])

/-- Embedding of `parse_files_xml`: an `ET.parse` failure is caught and
yields the empty mapping; the element loop may itself raise. -/
def parse_files_xml (manifest : Except Unit (List FileElem)) : Except Unit BlobIndex :=
  match manifest with
  | .error _ => .ok []
  | .ok entries => buildIndex entries []

/-- Parsed content of a `resource.xml` / `page.xml` record file:
the `contextid` attribute (`attrib.get`, so `Option String`), whether the
kind-named child element is present, and the child's `<name>` element
(present?, text?). -/
structure ActivityXml where
  contextid : Option String
  childPresent : Bool
  nameText : Option (Option String)
deriving DecidableEq, Repr

/-- Parsed content of a `section.xml`: the three child elements, each
possibly absent, each with possibly missing text. -/
structure SectionXml where
  number : Option (Option String)
  name : Option (Option String)
  sequence : Option (Option String)
deriving DecidableEq, Repr

/-- One entry of `os.listdir("./sections")`: the subfolder name, whether it
is a directory, and its `section.xml` (`none` if the file does not exist,
`error` if `ET.parse` raises). -/
structure SectionEntry where
  name : String
  isdir : Bool
  sectionXml : Option (Except Unit SectionXml)

/-- The parts of the filesystem the script reads. `resourceXml sid` models
`./activities/resource_<sid>/resource.xml` (`none` when `os.path.exists` is
false, `error` when `ET.parse` raises); `pageXml` likewise.
`activityFolders` is `os.listdir("./activities")` with `os.path.isdir`
flags, in enumeration order. `blobExists h` is
`os.path.exists("./files/" + h[:2] + "/" + h)` and `copyFails src dest`
models `shutil.copy2` raising. -/
structure FS where
  filesXml : Option (Except Unit (List FileElem))
  sectionEntries : List SectionEntry
  activityFolders : List (String × Bool)
  resourceXml : String → Option (Except Unit ActivityXml)
  pageXml : String → Option (Except Unit ActivityXml)
  blobExists : String → Bool
  copyFails : String → String → Bool

/-- The two fully supported record kinds. -/
inductive Kind
  | resource
  | page
deriving DecidableEq, Repr

/-- Result of the probe for a sequence id (lines 106-137 of the script). -/
inductive ProbeResult
  | found (k : Kind) (xml : Except Unit ActivityXml)
  | unsupported (detected : String)
  | notFound
deriving Repr

/-- The predicate of the fallback scan: a directory whose name ends with
an underscore and the sequence id but is neither a resource nor a page
folder. -/
def scanMatch (sid : String) (e : String × Bool) : Bool :=
  e.2 && pyEndswith ("_" ++ sid) e.1 &&
    !(pyStartswith "resource_" e.1) && !(pyStartswith "page_" e.1)

/-- Embedding of the resolution step: try `resource_<sid>/resource.xml`,
then `page_<sid>/page.xml`, then scan `./activities` for the first folder
matching `scanMatch` (the Python loop breaks on the first hit). -/
def probe (fs : FS) (sid : String) : ProbeResult :=
  match fs.resourceXml sid with
  | some px => .found .resource px
  | none =>
    match fs.pageXml sid with
    | some px => .found .page px
    | none =>
      match fs.activityFolders.find? (scanMatch sid) with
      | some e => .unsupported (firstField '_' e.1)
      | none => .notFound

/-- Outcome of one iteration of the sequence loop: every error path of the
script body (each ending in `continue`) and the success path. -/
inductive ItemOutcome
  | unsupportedKind (detected : String)
  | notFound (sid : String)
  | recordParseError (k : Kind)
  | missingContextid (k : Kind)
  | missingChild (k : Kind)
  | missingName (k : Kind)
  | noIndexEntry (contextid : String)
  | blobMissing (srcPath : String) (resourceName : String)
  | copyError (srcPath : String) (destPath : String)
  | copied (srcPath : String) (destPath : String)
deriving DecidableEq, Repr

/-- Source path of a blob: `"./files/" + h[:2] + "/" + h` (the Python slice
takes the first two characters). -/
def srcPathOf (h : String) : String :=
  "./files/" ++ String.mk (h.data.take 2) ++ "/" ++ h

/-- Body of the sequence loop for one `(idx, seq_id)` pair (lines 106-186):
probe, parse the record, read its contextid attribute, its kind-named child
and the display name, look the contextid up in the mapping, check the blob
and copy. -/
def processItem (fs : FS) (index : BlobIndex) (sectionPath : String)
    (idx : Nat) (sid : String) : ItemOutcome :=
  match probe fs sid with
  | .unsupported detected => .unsupportedKind detected
  | .notFound => .notFound sid
  | .found k px =>
    match px with
    | .error _ => .recordParseError k
    | .ok xml =>
      match xml.contextid with
      | none => .missingContextid k
      | some c =>
        if c = "" then .missingContextid k
        else if xml.childPresent = false then .missingChild k
        else
          match xml.nameText with
          | none => .missingName k
          | some none => .missingName k
          | some (some t) =>
            if t = "" then .missingName k
            else
              let resourceName := pyStrip t
              match lookupCtx c index with
              | none => .noIndexEntry c
              | some (h, e) =>
                let src := srcPathOf h
                if fs.blobExists h = false then .blobMissing src resourceName
                else
                  let destFilename :=
                    fmt02d idx ++ " " ++ sanitize_filename resourceName ++ "." ++ e
                  let dest := sectionPath ++ "/" ++ destFilename
                  if fs.copyFails src dest then .copyError src dest
                  else .copied src dest

/-- Python `enumerate(l, start=n)`. -/
def enum1 : Nat → List α → List (Nat × α)
  | _, [] => []
  | n, x :: xs => (n, x) :: enum1 (n + 1) xs

/-- The sequence field split on commas, each token stripped, empty tokens
dropped (the list comprehension of line 104). -/
def parseSeq (t : String) : List String :=
  ((pySplit ',' t).map pyStrip).filter (fun s => s ≠ "")

/-- The sequence loop over the filtered ids, enumerated from 1. -/
def processedItems (fs : FS) (index : BlobIndex) (sectionPath : String)
    (ids : List String) : List ItemOutcome :=
  (enum1 1 ids).map (fun p => processItem fs index sectionPath p.1 p.2)

/-- Outcome of one iteration of the sections loop: the silent non-directory
skip, each reported error path, or the processed section with its output
folder name and per-item outcomes. -/
inductive SectionOutcome
  | notDir
  | missingSectionXml
  | sectionParseError
  | missingElems
  | processed (folderName : String) (items : List ItemOutcome)
deriving DecidableEq, Repr

/-- Body of the sections loop for one listdir entry (lines 64-186). -/
def processSection (fs : FS) (index : BlobIndex) (e : SectionEntry) :
    SectionOutcome :=
  if e.isdir = false then .notDir
  else
    match e.sectionXml with
    | none => .missingSectionXml
    | some (.error _) => .sectionParseError
    | some (.ok sx) =>
      match sx.number, sx.name, sx.sequence with
      | some numT, some nameT, some seqT =>
        let sectionNumberText := optTextD "0" numT
        let sectionName := optTextD "Unnamed" nameT
        let sequenceText := optText seqT
        let n : Int := (pyInt sectionNumberText).getD 0
        let folderName := fmt02dInt n ++ " Chapter " ++ sanitize_filename sectionName
        let sectionPath := "./output/" ++ folderName
        .processed folderName
          (processedItems fs index sectionPath (parseSeq sequenceText))
      | _, _, _ => .missingElems

/-- Embedding of `process_sections`: one outcome per listdir entry. -/
def process_sections (fs : FS) (index : BlobIndex) : List SectionOutcome :=
  fs.sectionEntries.map (processSection fs index)

/-- Result of a full run of `main` that did not raise. -/
inductive RunOutcome
  | noManifest
  | noEntries
  | completed (sections : List SectionOutcome)
deriving DecidableEq, Repr

/-- Embedding of `main`: missing `files.xml` and an empty mapping are the
two reported early returns; an exception from `parse_files_xml` propagates
(nothing catches it). -/
def mainRun (fs : FS) : Except Unit RunOutcome :=
  match fs.filesXml with
  | none => .ok .noManifest
  | some mf =>
    match parse_files_xml mf with
    | .error e => .error e
    | .ok index =>
      if index = [] then .ok .noEntries
      else .ok (.completed (process_sections fs index))

/-- Left-biased choice on options (the shape of an association-list lookup
through an append). -/
def orO : Option α → Option α → Option α
  | some v, _ => some v
  | none, b => b

@[simp] theorem orO_some (v : α) (b : Option α) : orO (some v) b = some v := rfl

@[simp] theorem orO_none (b : Option α) : orO none b = b := rfl

/-- The (content hash, extension) of the first entry of the manifest that
survives the validity checks and has content identifier `k`: the
specification's description of the duplicate policy, stated independently of
the dictionary built by `buildIndex`. -/
def firstValid (k : String) : List FileElem → Option (String × String)
  | [] => none
  | f :: rest =>
    match entryStep f with
    | .ok (some (c, h, e)) => if c = k then some (h, e) else firstValid k rest
    | _ => firstValid k rest

/-- Manifest entry whose `contextid` element is present but has no text:
`contextid_elem.text` is `None` and line 38 raises `AttributeError`. -/
def poisonElem : FileElem :=
  { contextid := some none, contenthash := some (some "abcd1234"),
    filename := some (some "a.pdf") }

/-- Manifest entry whose `contextid` element is absent: skipped by the
guard on line 35. -/
def absentCtxElem : FileElem :=
  { contextid := none, contenthash := some (some "abcd1234"),
    filename := some (some "a.pdf") }

/-- A fully valid manifest entry with context identifier 7. -/
def goodElem : FileElem :=
  { contextid := some (some "7"), contenthash := some (some "abcd1234"),
    filename := some (some "intro.pdf") }

/-- Filesystem whose manifest parses and holds a valid entry followed by
`poisonElem`. -/
def fsPoison : FS :=
  { filesXml := some (.ok [goodElem, poisonElem])
    sectionEntries := []
    activityFolders := []
    resourceXml := fun _ => none
    pageXml := fun _ => none
    blobExists := fun _ => false
    copyFails := fun _ _ => false }

/-- First manifest entry for context identifier 7: hash aaaa, ext pdf. -/
def dupA : FileElem :=
  { contextid := some (some "7"), contenthash := some (some "aaaa"),
    filename := some (some "a.pdf") }

/-- Second manifest entry for the same context identifier 7: hash bbbb. -/
def dupB : FileElem :=
  { contextid := some (some "7"), contenthash := some (some "bbbb"),
    filename := some (some "b.txt") }

/-- Filesystem of the unsupported-kind scenario: only a `quiz_205` activity
folder exists. -/
def fsQuiz : FS :=
  { filesXml := none
    sectionEntries := []
    activityFolders := [("quiz_205", true)]
    resourceXml := fun _ => none
    pageXml := fun _ => none
    blobExists := fun _ => false
    copyFails := fun _ _ => false }

/-- Record file of activity 101: its own contextid is 7, which is not the
reference id. -/
def resXml7 : ActivityXml :=
  { contextid := some "7", childPresent := true,
    nameText := some (some "Introduction") }

/-- Filesystem where reference id 101 resolves to a resource record whose
contextid is 7, and the blob `abcd` exists. -/
def fsC7 : FS :=
  { filesXml := none
    sectionEntries := []
    activityFolders := []
    resourceXml := fun sid => if sid = "101" then some (.ok resXml7) else none
    pageXml := fun _ => none
    blobExists := fun h => h = "abcd"
    copyFails := fun _ _ => false }

/-- Index holding one entry under the reference id 101 and another under the
record's contextid 7. -/
def idxC7 : BlobIndex := [("101", "zzzz", "txt"), ("7", "abcd", "pdf")]

/-- Section subfolder whose `section.xml` does not parse. -/
def secBad : SectionEntry :=
  { name := "s1", isdir := true, sectionXml := some (.error ()) }

/-- Section subfolder number 1, name Week 1, sequence `205,101`. -/
def secGood : SectionEntry :=
  { name := "s2", isdir := true,
    sectionXml := some (.ok
      { number := some (some "1"), name := some (some "Week 1"),
        sequence := some (some "205,101") }) }

/-- Demonstration filesystem: a broken section followed by a good one whose
first sequence id is an unsupported quiz and whose second resolves fully. -/
def fsDemo : FS :=
  { filesXml := some (.ok [goodElem])
    sectionEntries := [secBad, secGood]
    activityFolders := [("quiz_205", true)]
    resourceXml := fun sid => if sid = "101" then some (.ok resXml7) else none
    pageXml := fun _ => none
    blobExists := fun h => h = "abcd1234"
    copyFails := fun _ _ => false }

/-- The index `parse_files_xml` builds from `fsDemo`'s manifest. -/
def idxDemo : BlobIndex := [("7", "abcd1234", "pdf")]

/-- Destinations of the successful copies among a list of item outcomes. -/
def copiedDests : List ItemOutcome → List String
  | [] => []
  | .copied _ d :: rest => d :: copiedDests rest
  | _ :: rest => copiedDests rest

/-- First of two sections that carry the same number and name. -/
def secDup1 : SectionEntry :=
  { name := "s1", isdir := true,
    sectionXml := some (.ok
      { number := some (some "1"), name := some (some "A"),
        sequence := some (some "101") }) }

/-- Second section, a different archive subfolder with identical content. -/
def secDup2 : SectionEntry :=
  { name := "s2", isdir := true,
    sectionXml := some (.ok
      { number := some (some "1"), name := some (some "A"),
        sequence := some (some "101") }) }

/-- Filesystem holding the two identically-described sections. -/
def fsDup : FS :=
  { filesXml := none
    sectionEntries := [secDup1, secDup2]
    activityFolders := []
    resourceXml := fun sid => if sid = "101" then some (.ok resXml7) else none
    pageXml := fun _ => none
    blobExists := fun h => h = "abcd"
    copyFails := fun _ _ => false }

/-- Filesystem with no manifest file at all. -/
def fsNoManifest : FS :=
  { filesXml := none
    sectionEntries := [secDup1]
    activityFolders := []
    resourceXml := fun _ => none
    pageXml := fun _ => none
    blobExists := fun _ => false
    copyFails := fun _ _ => false }

/-- Filesystem whose manifest exists but does not parse. -/
def fsBadParse : FS :=
  { filesXml := some (.error ())
    sectionEntries := [secDup1]
    activityFolders := []
    resourceXml := fun _ => none
    pageXml := fun _ => none
    blobExists := fun _ => false
    copyFails := fun _ _ => false }

/-- Filesystem whose manifest parses but yields no usable entry. -/
def fsEmptyManifest : FS :=
  { filesXml := some (.ok [absentCtxElem])
    sectionEntries := [secDup1]
    activityFolders := []
    resourceXml := fun _ => none
    pageXml := fun _ => none
    blobExists := fun _ => false
    copyFails := fun _ _ => false }

theorem lookupCtx_append (k : String) (a b : BlobIndex) :
    lookupCtx k (a ++ b) = orO (lookupCtx k a) (lookupCtx k b) := by
  induction a with
  | nil => simp [lookupCtx]
  | cons x xs ih =>
    obtain ⟨k2, h, e⟩ := x
    by_cases hk : k2 = k <;> simp [lookupCtx, hk, ih]

theorem buildIndex_lookup (l : List FileElem) :
    ∀ acc m, buildIndex l acc = .ok m → ∀ k,
      lookupCtx k m = orO (lookupCtx k acc) (firstValid k l) := by
  induction l with
  | nil =>
    intro acc m hm k
    cases hm
    cases h : lookupCtx k acc <;> simp [firstValid, h]
  | cons f rest ih =>
    intro acc m hm k
    unfold buildIndex at hm
    cases hstep : entryStep f with
    | error e => rw [hstep] at hm; cases hm
    | ok o =>
      cases o with
      | none =>
        rw [hstep] at hm
        rw [ih acc m hm k]
        simp [firstValid, hstep]
      | some v =>
        obtain ⟨c, h, e⟩ := v
        rw [hstep] at hm
        dsimp only at hm
        by_cases hin : (lookupCtx c acc).isSome
        · rw [if_pos hin] at hm
          rw [ih acc m hm k]
          by_cases hck : c = k
          · subst hck
            obtain ⟨w, hw⟩ := Option.isSome_iff_exists.mp hin
            simp [firstValid, hstep, hw]
          · simp [firstValid, hstep, hck]
        · rw [if_neg hin] at hm
          rw [ih (acc ++ [(c, h, e)]) m hm k]
          rw [lookupCtx_append]
          cases hacc : lookupCtx k acc with
          | some w => simp
          | none =>
            by_cases hck : c = k
            · subst hck
              simp [lookupCtx, firstValid, hstep]
            · simp [lookupCtx, hck, firstValid, hstep]

/-- C10: a manifest `<file>` whose `contextid` element is present but empty
makes the index builder raise (strip of a missing text) and the whole run
crash, whereas an entry whose `contextid` element is absent is skipped and
the build succeeds. -/
theorem c10_present_empty_contextid_crashes :
    buildIndex [poisonElem] [] = .error () ∧
    buildIndex [absentCtxElem] [] = .ok [] ∧
    mainRun fsPoison = .error () ∧
    buildIndex [goodElem, absentCtxElem] [] = .ok [("7", "abcd1234", "pdf")] :=
  ⟨rfl, rfl, rfl, rfl⟩

/-- C2: for every manifest whose build succeeds, every lookup in the built
index returns the (content hash, extension) of the first valid entry with
that content identifier in manifest order; later duplicates never override
it. -/
theorem c2_first_valid_entry_wins (l : List FileElem) (m : BlobIndex)
    (hm : buildIndex l [] = Except.ok m) (k : String) :
    lookupCtx k m = firstValid k l := by
  have h := buildIndex_lookup l [] m hm k
  simpa [lookupCtx] using h

/-- C2 witness: two entries share context identifier 7; the index stores the
first one's hash and extension, not the second's. -/
theorem c2_first_valid_entry_wins_witness :
    buildIndex [dupA, dupB] [] = Except.ok [("7", "aaaa", "pdf")] ∧
    lookupCtx "7" [("7", "aaaa", "pdf")] = firstValid "7" [dupA, dupB] ∧
    firstValid "7" [dupA, dupB] = some ("aaaa", "pdf") ∧
    some ("aaaa", "pdf") ≠ some ("bbbb", "txt") :=
  ⟨rfl, c2_first_valid_entry_wins [dupA, dupB] [("7", "aaaa", "pdf")] rfl "7",
   rfl, by decide⟩

theorem stringMkData (s : String) : String.mk s.data = s := rfl

theorem getLastD_irrel {α : Type} {l : List α} (h : l ≠ []) (d1 d2 : α) :
    l.getLastD d1 = l.getLastD d2 := by
  cases l with
  | nil => exact absurd rfl h
  | cons x xs => simp only [List.getLastD_cons]

theorem splitList_ne_nil (c : Char) (l : List Char) : splitList c l ≠ [] := by
  induction l with
  | nil => simp [splitList]
  | cons x xs ih =>
    by_cases hx : x = c
    · simp [splitList, hx]
    · simp only [splitList, if_neg hx]
      cases hr : splitList c xs <;> simp

theorem splitList_of_not_mem {c : Char} {l : List Char} (h : c ∉ l) :
    splitList c l = [l] := by
  induction l with
  | nil => rfl
  | cons x xs ih =>
    have hx : ¬x = c := fun he => h (he ▸ List.mem_cons_self x xs)
    have hxs : c ∉ xs := fun hm => h (List.mem_cons_of_mem _ hm)
    simp [splitList, hx, ih hxs]

theorem two_le_splitList_length {c : Char} {l : List Char} (h : c ∈ l) :
    2 ≤ (splitList c l).length := by
  induction l with
  | nil => cases h
  | cons x xs ih =>
    by_cases hx : x = c
    · have hne := splitList_ne_nil c xs
      have hpos : 0 < (splitList c xs).length := List.length_pos.mpr hne
      simp only [splitList, if_pos hx, List.length_cons]
      omega
    · have hxs : c ∈ xs := by
        rcases List.mem_cons.mp h with h1 | h2
        · exact absurd h1.symm hx
        · exact h2
      have h2 := ih hxs
      cases hr : splitList c xs with
      | nil => exact absurd hr (splitList_ne_nil c xs)
      | cons y ys =>
        rw [hr] at h2
        simp only [splitList, if_neg hx, hr, List.length_cons] at h2 ⊢
        omega

theorem lastFieldChars_cons {c : Char} {xs : List Char} (x : Char)
    (hmem : c ∈ xs) : lastFieldChars c (x :: xs) = lastFieldChars c xs := by
  have h2 := two_le_splitList_length hmem
  cases hr : splitList c xs with
  | nil => exact absurd hr (splitList_ne_nil c xs)
  | cons y ys =>
    rw [hr] at h2
    have hys : ys ≠ [] := by
      intro hn
      rw [hn] at h2
      simp at h2
    by_cases hx : x = c
    · have hsp : splitList c (x :: xs) = [] :: y :: ys := by
        simp [splitList, hr, hx]
      unfold lastFieldChars
      rw [hsp, hr]
      simp only [List.getLastD_cons]
    · have hsp : splitList c (x :: xs) = (x :: y) :: ys := by
        simp [splitList, hr, hx]
      unfold lastFieldChars
      rw [hsp, hr]
      simp only [List.getLastD_cons]
      exact getLastD_irrel hys (x :: y) y

theorem lastFieldChars_append {c : Char} (s : List Char) (hs : c ∉ s) :
    ∀ p, lastFieldChars c (p ++ c :: s) = s := by
  intro p
  induction p with
  | nil =>
    have hsp : splitList c (c :: s) = [] :: [s] := by
      simp [splitList, splitList_of_not_mem hs]
    unfold lastFieldChars
    rw [List.nil_append, hsp]
    simp [List.getLastD_cons]
  | cons x p ih =>
    have hmem : c ∈ p ++ c :: s := List.mem_append_right p (List.mem_cons_self c s)
    rw [List.cons_append, lastFieldChars_cons x hmem, ih]

theorem lastFieldChars_decomp {c : Char} {l : List Char} (h : c ∈ l) :
    ∃ p, l = p ++ c :: lastFieldChars c l ∧ c ∉ lastFieldChars c l := by
  induction l with
  | nil => cases h
  | cons x xs ih =>
    by_cases hxs : c ∈ xs
    · obtain ⟨p, hp, hnot⟩ := ih hxs
      rw [lastFieldChars_cons x hxs]
      exact ⟨x :: p, by rw [List.cons_append, ← hp], hnot⟩
    · have hx : x = c := by
        rcases List.mem_cons.mp h with h1 | h2
        · exact h1.symm
        · exact absurd h2 hxs
      subst hx
      have hlast : lastFieldChars x (x :: xs) = xs := by
        have := lastFieldChars_append xs hxs []
        simpa using this
      rw [hlast]
      exact ⟨[], rfl, hxs⟩

theorem firstValid_isSome_iff (k : String) (l : List FileElem) :
    (firstValid k l).isSome ↔
      ∃ f ∈ l, ∃ h e, entryStep f = .ok (some (k, h, e)) := by
  induction l with
  | nil => simp [firstValid]
  | cons f rest ih =>
    cases hstep : entryStep f with
    | error e =>
      simp only [firstValid, hstep, List.exists_mem_cons_iff, ih, hstep]
      constructor
      · intro h; exact Or.inr h
      · rintro (⟨h0, e0, habs⟩ | h)
        · cases habs
        · exact h
    | ok o =>
      cases o with
      | none =>
        simp only [firstValid, hstep, List.exists_mem_cons_iff, ih]
        constructor
        · intro h; exact Or.inr h
        · rintro (⟨h0, e0, habs⟩ | h)
          · cases habs
          · exact h
      | some v =>
        obtain ⟨c, h0, e0⟩ := v
        by_cases hck : c = k
        · subst hck
          simp only [firstValid, hstep, if_pos rfl, List.exists_mem_cons_iff]
          constructor
          · intro _; exact Or.inl ⟨h0, e0, rfl⟩
          · intro _; rfl
        · simp only [firstValid, hstep, if_neg hck, List.exists_mem_cons_iff, ih]
          constructor
          · intro h; exact Or.inr h
          · rintro (⟨h1, e1, habs⟩ | h)
            · injection habs with habs
              injection habs with habs
              exact absurd (congrArg Prod.fst habs) hck
            · exact h

/-- An entry produces an index candidate exactly when all three child
elements are present, the stripped content hash is non-empty, the stripped
filename is non-empty and not the bare dot, and the part after the last dot
of the filename (which is the stored extension) is non-empty. -/
theorem entryStep_ok_some_iff (f : FileElem) (ctx h e : String) :
    entryStep f = .ok (some (ctx, h, e)) ↔
      ∃ ctxS chT fnT,
        f.contextid = some (some ctxS) ∧ f.contenthash = some chT ∧
        f.filename = some fnT ∧ ctx = pyStrip ctxS ∧ h = optText chT ∧
        h ≠ "" ∧ optText fnT ≠ "" ∧ optText fnT ≠ "." ∧ e ≠ "" ∧
        ∃ p, (optText fnT).data = p ++ '.' :: e.data ∧ '.' ∉ e.data := by
  constructor
  · intro hstep
    obtain ⟨ctxT, hctx⟩ : ∃ ctxT, f.contextid = some ctxT := by
      cases hfc : f.contextid with
      | none =>
        unfold entryStep at hstep
        rw [hfc] at hstep
        cases hfh : f.contenthash <;> cases hfn : f.filename <;>
          rw [hfh, hfn] at hstep <;> cases hstep
      | some t => exact ⟨t, rfl⟩
    obtain ⟨chT, hch⟩ : ∃ chT, f.contenthash = some chT := by
      cases hfh : f.contenthash with
      | none =>
        unfold entryStep at hstep
        rw [hctx, hfh] at hstep
        cases hfn : f.filename <;> rw [hfn] at hstep <;> cases hstep
      | some t => exact ⟨t, rfl⟩
    obtain ⟨fnT, hfn⟩ : ∃ fnT, f.filename = some fnT := by
      cases hff : f.filename with
      | none =>
        unfold entryStep at hstep
        rw [hctx, hch, hff] at hstep
        cases hstep
      | some t => exact ⟨t, rfl⟩
    unfold entryStep at hstep
    rw [hctx, hch, hfn] at hstep
    cases ctxT with
    | none => cases hstep
    | some ctxS =>
      dsimp only at hstep
      by_cases hskip : optText chT = "" ∨ optText fnT = "." ∨ optText fnT = ""
      · rw [if_pos hskip] at hstep; cases hstep
      · rw [if_neg hskip] at hstep
        push_neg at hskip
        obtain ⟨hch1, hfn1, hfn2⟩ := hskip
        by_cases hdot : (optText fnT).data.contains '.'
        · rw [if_pos hdot] at hstep
          by_cases hext : String.mk (lastFieldChars '.' (optText fnT).data) ≠ ""
          · rw [if_pos hext] at hstep
            injection hstep with hstep
            injection hstep with hstep
            have hctxEq : ctx = pyStrip ctxS := congrArg Prod.fst hstep.symm
            have hrest := congrArg Prod.snd hstep.symm
            have hhEq : h = optText chT := congrArg Prod.fst hrest
            have heEq : e = String.mk (lastFieldChars '.' (optText fnT).data) :=
              congrArg Prod.snd hrest
            have hmem : '.' ∈ (optText fnT).data := by
              simpa using hdot
            obtain ⟨p, hp, hnp⟩ := lastFieldChars_decomp hmem
            refine ⟨ctxS, chT, fnT, hctx, hch, hfn, hctxEq, hhEq, ?_, hfn2, hfn1, ?_, p, ?_, ?_⟩
            · rw [hhEq]; exact hch1
            · rw [heEq]; exact hext
            · rw [heEq]; exact hp
            · rw [heEq]; exact hnp
          · rw [if_neg hext] at hstep; cases hstep
        · rw [if_neg hdot] at hstep
          rw [if_neg (by simp)] at hstep
          cases hstep
  · rintro ⟨ctxS, chT, fnT, hctx, hch, hfn, hctxEq, hhEq, hne, hfn1, hfn2, hene, p, hp, hnp⟩
    unfold entryStep
    rw [hctx, hch, hfn]
    dsimp only
    have hmem : '.' ∈ (optText fnT).data := by
      rw [hp]
      exact List.mem_append_right p (List.mem_cons_self '.' e.data)
    have hdot : (optText fnT).data.contains '.' = true := by
      simpa using hmem
    have hlast : lastFieldChars '.' (optText fnT).data = e.data := by
      rw [hp]
      exact lastFieldChars_append e.data hnp p
    rw [if_neg (by push_neg; exact ⟨hhEq ▸ hne, hfn2, hfn1⟩)]
    rw [if_pos hdot, hlast, stringMkData]
    rw [if_pos (by exact hene)]
    rw [hctxEq, hhEq]

/-- C5: membership in the built index is exactly existence of a manifest
entry passing all validity checks for that content identifier, and a
candidate entry is characterized by: all three child elements present,
non-empty content hash, filename non-empty and not the bare dot, and the
stored extension being the non-empty substring after the last dot of the
filename. -/
theorem c5_index_membership_and_extension (l : List FileElem) (m : BlobIndex)
    (hm : buildIndex l [] = Except.ok m) :
    (∀ k, (lookupCtx k m).isSome ↔
      ∃ f ∈ l, ∃ h e, entryStep f = .ok (some (k, h, e))) ∧
    (∀ f ctx h e, entryStep f = .ok (some (ctx, h, e)) ↔
      ∃ ctxS chT fnT,
        f.contextid = some (some ctxS) ∧ f.contenthash = some chT ∧
        f.filename = some fnT ∧ ctx = pyStrip ctxS ∧ h = optText chT ∧
        h ≠ "" ∧ optText fnT ≠ "" ∧ optText fnT ≠ "." ∧ e ≠ "" ∧
        ∃ p, (optText fnT).data = p ++ '.' :: e.data ∧ '.' ∉ e.data) := by
  constructor
  · intro k
    have hl : lookupCtx k m = firstValid k l := by
      have h := buildIndex_lookup l [] m hm k
      simpa [lookupCtx] using h
    rw [hl]
    exact firstValid_isSome_iff k l
  · intro f ctx h e
    exact entryStep_ok_some_iff f ctx h e

theorem enum1_length (n : Nat) (l : List α) : (enum1 n l).length = l.length := by
  induction l generalizing n with
  | nil => rfl
  | cons x xs ih => simp [enum1, ih]

theorem processedItems_length (fs : FS) (index : BlobIndex) (p : String)
    (ids : List String) : (processedItems fs index p ids).length = ids.length := by
  simp [processedItems, enum1_length]

/-- C5 witness: concrete two-entry manifest, one valid entry with context
identifier 7 and one entry without a contextid element; the theorem applied
at this input. -/
theorem c5_index_membership_and_extension_witness :
    (∀ k, (lookupCtx k [("7", "abcd1234", "pdf")]).isSome ↔
      ∃ f ∈ [goodElem, absentCtxElem], ∃ h e, entryStep f = .ok (some (k, h, e))) ∧
    (∀ f ctx h e, entryStep f = .ok (some (ctx, h, e)) ↔
      ∃ ctxS chT fnT,
        f.contextid = some (some ctxS) ∧ f.contenthash = some chT ∧
        f.filename = some fnT ∧ ctx = pyStrip ctxS ∧ h = optText chT ∧
        h ≠ "" ∧ optText fnT ≠ "" ∧ optText fnT ≠ "." ∧ e ≠ "" ∧
        ∃ p, (optText fnT).data = p ++ '.' :: e.data ∧ '.' ∉ e.data) :=
  c5_index_membership_and_extension [goodElem, absentCtxElem]
    [("7", "abcd1234", "pdf")] rfl

/-- C3: resolution probes the resource record file first, then the page
record file; the first that exists determines the kind. If neither exists,
the first activity folder (in listdir order) ending in underscore plus the
reference id that is neither a resource nor a page folder makes the item a
policy skip reporting the folder's leading underscore-field; if no folder
matches, the item is a not-found error.  Either way the sequence loop still
yields one outcome per remaining id. -/
theorem c3_probe_order_and_fallback (fs : FS) (index : BlobIndex)
    (p : String) (idx : Nat) (sid : String) :
    (∀ px, fs.resourceXml sid = some px → probe fs sid = .found .resource px) ∧
    (fs.resourceXml sid = none → ∀ px, fs.pageXml sid = some px →
      probe fs sid = .found .page px) ∧
    (fs.resourceXml sid = none → fs.pageXml sid = none →
      ∀ e, fs.activityFolders.find? (scanMatch sid) = some e →
        scanMatch sid e = true ∧
        processItem fs index p idx sid = .unsupportedKind (firstField '_' e.1)) ∧
    (fs.resourceXml sid = none → fs.pageXml sid = none →
      fs.activityFolders.find? (scanMatch sid) = none →
      processItem fs index p idx sid = .notFound sid) ∧
    (∀ ids, (processedItems fs index p ids).length = ids.length) := by
  refine ⟨?_, ?_, ?_, ?_, ?_⟩
  · intro px h
    simp [probe, h]
  · intro h1 px h2
    simp [probe, h1, h2]
  · intro h1 h2 e hfind
    refine ⟨List.find?_some hfind, ?_⟩
    simp [processItem, probe, h1, h2, hfind]
  · intro h1 h2 hfind
    simp [processItem, probe, h1, h2, hfind]
  · intro ids
    exact processedItems_length fs index p ids

/-- C3 witness: for reference id 205, the only folder is `quiz_205`, so the
item is skipped reporting kind `quiz`; for reference id 101 nothing matches
and the item is a not-found error. -/
theorem c3_probe_order_and_fallback_witness :
    (scanMatch "205" ("quiz_205", true) = true ∧
      processItem fsQuiz [] "./output/s" 1 "205" = .unsupportedKind "quiz") ∧
    processItem fsQuiz [] "./output/s" 2 "101" = .notFound "101" := by
  constructor
  · have h := (c3_probe_order_and_fallback fsQuiz [] "./output/s" 1
      "205").2.2.1 rfl rfl ("quiz_205", true) (by decide)
    simpa using h
  · exact (c3_probe_order_and_fallback fsQuiz [] "./output/s" 2
      "101").2.2.2.1 rfl rfl (by decide)

/-- C7: once a record is resolved and parsed, the blob lookup key is the
record's own contextid attribute `c`; the remaining behaviour of the item is
a function of `lookupCtx c index` alone, whatever the sequence reference id
was. -/
theorem c7_lookup_key_is_record_contextid (fs : FS) (index : BlobIndex)
    (p : String) (idx : Nat) (sid : String) (k : Kind) (xml : ActivityXml)
    (c t : String)
    (hp : probe fs sid = .found k (.ok xml))
    (hc : xml.contextid = some c) (hcne : c ≠ "")
    (hchild : xml.childPresent = true)
    (hname : xml.nameText = some (some t)) (htne : t ≠ "") :
    processItem fs index p idx sid =
      match lookupCtx c index with
      | none => .noIndexEntry c
      | some (h, e) =>
        if fs.blobExists h = false then .blobMissing (srcPathOf h) (pyStrip t)
        else
          if fs.copyFails (srcPathOf h)
              (p ++ "/" ++ (fmt02d idx ++ " " ++
                sanitize_filename (pyStrip t) ++ "." ++ e)) then
            .copyError (srcPathOf h)
              (p ++ "/" ++ (fmt02d idx ++ " " ++
                sanitize_filename (pyStrip t) ++ "." ++ e))
          else
            .copied (srcPathOf h)
              (p ++ "/" ++ (fmt02d idx ++ " " ++
                sanitize_filename (pyStrip t) ++ "." ++ e)) := by
  unfold processItem
  rw [hp]
  simp only [hc, hchild, hname]
  rw [if_neg hcne]
  simp only [Bool.true_eq_false, if_false]
  rw [if_neg htne]

/-- C7 witness: the record for reference 101 carries contextid 7; the copy
uses the index entry of key 7 (hash abcd, extension pdf), not the entry
stored under the reference id 101. -/
theorem c7_lookup_key_is_record_contextid_witness :
    processItem fsC7 idxC7 "./output/s" 1 "101" =
      .copied "./files/ab/abcd" "./output/s/01 Introduction.pdf" ∧
    lookupCtx "7" idxC7 = some ("abcd", "pdf") ∧
    lookupCtx "101" idxC7 = some ("zzzz", "txt") := by
  refine ⟨?_, rfl, rfl⟩
  have h := c7_lookup_key_is_record_contextid fsC7 idxC7 "./output/s" 1 "101"
    .resource resXml7 "7" "Introduction" rfl rfl (by decide) rfl rfl (by decide)
  rw [h]
  rfl

theorem enum1_getElem? (n : Nat) (l : List α) (i : Nat) :
    (enum1 n l)[i]? = (l[i]?).map (fun x => (n + i, x)) := by
  induction l generalizing n i with
  | nil => simp [enum1]
  | cons x xs ih =>
    cases i with
    | zero => simp [enum1]
    | succ j =>
      simp only [enum1, List.getElem?_cons_succ, ih, Nat.add_succ, Nat.succ_add]

theorem getElem?_map_local {α β : Type} (f : α → β) (l : List α) (i : Nat) :
    (l.map f)[i]? = (l[i]?).map f := by
  induction l generalizing i with
  | nil => simp
  | cons x xs ih => cases i <;> simp [ih]

theorem processedItems_getElem? (fs : FS) (index : BlobIndex) (p : String)
    (ids : List String) (i : Nat) :
    (processedItems fs index p ids)[i]? =
      (ids[i]?).map (fun sid => processItem fs index p (1 + i) sid) := by
  simp only [processedItems, getElem?_map_local, enum1_getElem?, Option.map_map]
  rfl

theorem enum1_map_fst (n : Nat) (l : List α) :
    (enum1 n l).map Prod.fst = List.range' n l.length := by
  induction l generalizing n with
  | nil => rfl
  | cons x xs ih => simp [enum1, ih, List.range'_succ]

/-- Destination shape of a successful copy: the section path, a slash, the
two-digit ordinal, a space, the sanitized name, a dot and the extension. -/
theorem processItem_copied_dest (fs : FS) (index : BlobIndex) (p : String)
    (idx : Nat) (sid src d : String)
    (h : processItem fs index p idx sid = .copied src d) :
    ∃ nm ext, d = p ++ "/" ++ (fmt02d idx ++ " " ++ nm ++ "." ++ ext) := by
  unfold processItem at h
  split at h
  · cases h
  · cases h
  · split at h
    · cases h
    · split at h
      · cases h
      · split at h
        · cases h
        · split at h
          · cases h
          · split at h
            · cases h
            · cases h
            · split at h
              · cases h
              · split at h
                · cases h
                · split at h
                  · cases h
                  · dsimp only at h
                    split at h
                    · cases h
                    · injection h with h1 h2
                      exact ⟨_, _, h2.symm⟩

/-- C4: error containment.  The sections loop yields exactly one outcome per
listdir entry, each a function of that entry alone; the sequence loop yields
exactly one outcome per filtered id, each a function of that id and its
position alone; and once the manifest index is built, the rest of the run
never raises. -/
theorem c4_errors_contained_per_iteration (fs : FS) (index : BlobIndex) :
    (process_sections fs index).length = fs.sectionEntries.length ∧
    (∀ i : Nat, (process_sections fs index)[i]? =
      (fs.sectionEntries[i]?).map (processSection fs index)) ∧
    (∀ (p : String) (ids : List String) (i : Nat),
      (processedItems fs index p ids)[i]? =
      (ids[i]?).map (fun sid => processItem fs index p (1 + i) sid)) ∧
    (∀ l bi, fs.filesXml = some (Except.ok l) → buildIndex l [] = Except.ok bi →
      ∃ r, mainRun fs = Except.ok r) := by
  refine ⟨by simp [process_sections], ?_, ?_, ?_⟩
  · intro i
    simp only [process_sections, getElem?_map_local]
  · intro p ids i
    exact processedItems_getElem? fs index p ids i
  · intro l bi hfx hbi
    unfold mainRun parse_files_xml
    rw [hfx]
    dsimp only
    rw [hbi]
    by_cases hnil : bi = []
    · exact ⟨.noEntries, by simp [hnil]⟩
    · exact ⟨.completed (process_sections fs bi), by simp [hnil]⟩

/-- C4 witness: the run completes although the first section is broken and
the good section's first item is an unsupported kind; the second section's
outcome is untouched by the earlier failures. -/
theorem c4_errors_contained_per_iteration_witness :
    (∃ r, mainRun fsDemo = Except.ok r) ∧
    (process_sections fsDemo idxDemo)[1]? =
      some (processSection fsDemo idxDemo secGood) ∧
    (process_sections fsDemo idxDemo)[0]? = some .sectionParseError ∧
    processSection fsDemo idxDemo secGood =
      .processed "01 Chapter Week 1"
        [.unsupportedKind "quiz",
         .copied "./files/ab/abcd1234"
           "./output/01 Chapter Week 1/02 Introduction.pdf"] := by
  refine ⟨(c4_errors_contained_per_iteration fsDemo idxDemo).2.2.2
    [goodElem] idxDemo rfl rfl, ?_, ?_, rfl⟩
  · have h := (c4_errors_contained_per_iteration fsDemo idxDemo).2.1 1
    rw [h]
    rfl
  · have h := (c4_errors_contained_per_iteration fsDemo idxDemo).2.1 0
    rw [h]
    rfl

/-- C6: the sequence field is split on commas, tokens stripped, empty tokens
dropped; the ordinals paired with the filtered ids are exactly 1, 2, ... up
to the filtered length, one outcome each, so blanks (as in `101, , 102`)
never occupy an ordinal. -/
theorem c6_filtered_sequence_drives_numbering (fs : FS) (index : BlobIndex)
    (p : String) (t : String) :
    parseSeq t = ((pySplit ',' t).map pyStrip).filter (fun s => s ≠ "") ∧
    (enum1 1 (parseSeq t)).map Prod.fst = List.range' 1 (parseSeq t).length ∧
    (processedItems fs index p (parseSeq t)).length = (parseSeq t).length ∧
    parseSeq "101, , 102" = ["101", "102"] :=
  ⟨rfl, enum1_map_fst 1 (parseSeq t),
   processedItems_length fs index p (parseSeq t), by decide⟩

/-- C1 counterexample: in section `Week 1` with sequence `205,101`, the
first entry fails (unsupported quiz) and the only successful copy is
numbered `02`, not `01`: the failure leaves a gap, so ordinals are not dense
over the successfully copied items. -/
theorem c1_failures_leave_gaps_counterexample :
    processSection fsDemo idxDemo secGood =
      .processed "01 Chapter Week 1"
        [.unsupportedKind "quiz",
         .copied "./files/ab/abcd1234"
           "./output/01 Chapter Week 1/02 Introduction.pdf"] ∧
    copiedDests
      [.unsupportedKind "quiz",
       .copied "./files/ab/abcd1234"
         "./output/01 Chapter Week 1/02 Introduction.pdf"] =
      ["./output/01 Chapter Week 1/" ++ (fmt02d 2 ++ " Introduction.pdf")] ∧
    "./output/01 Chapter Week 1/" ++ (fmt02d 2 ++ " Introduction.pdf") ≠
      "./output/01 Chapter Week 1/" ++ (fmt02d 1 ++ " Introduction.pdf") :=
  ⟨rfl, by decide, by decide⟩

/-- C1 amended: the ordinal embedded in a copied file's name is the 1-based
position of its entry in the filtered sequence, whether or not earlier
entries succeeded; a failed entry still consumes its ordinal, leaving a gap
in the numbering of the produced files. -/
theorem c1_amended_ordinal_is_sequence_position (fs : FS) (index : BlobIndex)
    (p : String) (ids : List String) (i : Nat) (sid src d : String)
    (hid : ids[i]? = some sid)
    (hcopy : processItem fs index p (1 + i) sid = .copied src d) :
    (processedItems fs index p ids)[i]? = some (.copied src d) ∧
    ∃ nm ext, d = p ++ "/" ++ (fmt02d (1 + i) ++ " " ++ nm ++ "." ++ ext) := by
  constructor
  · rw [processedItems_getElem? fs index p ids i, hid]
    simp [hcopy]
  · exact processItem_copied_dest fs index p (1 + i) sid src d hcopy

/-- C1 amended witness: in the demonstration section, the failed first entry
makes the successful second entry come out as ordinal 2. -/
theorem c1_amended_ordinal_is_sequence_position_witness :
    (processedItems fsDemo idxDemo "./output/01 Chapter Week 1"
      ["205", "101"])[1]? =
      some (.copied "./files/ab/abcd1234"
        "./output/01 Chapter Week 1/02 Introduction.pdf") ∧
    ∃ nm ext, "./output/01 Chapter Week 1/02 Introduction.pdf" =
      "./output/01 Chapter Week 1" ++ "/" ++ (fmt02d (1 + 1) ++ " " ++ nm ++ "." ++ ext) :=
  c1_amended_ordinal_is_sequence_position fsDemo idxDemo
    "./output/01 Chapter Week 1" ["205", "101"] 1 "101"
    "./files/ab/abcd1234" "./output/01 Chapter Week 1/02 Introduction.pdf"
    rfl rfl

theorem stringDataInj {s t : String} (h : s.data = t.data) : s = t := by
  cases s
  cases t
  exact congrArg String.mk h

theorem digitChar_inj10 :
    ∀ d1 d2 : Fin 10, Nat.digitChar d1.val = Nat.digitChar d2.val → d1 = d2 := by
  decide

theorem digitChar_ne_space10 : ∀ d : Fin 10, Nat.digitChar d.val ≠ ' ' := by
  decide

theorem digitChar_ne_zero10 : ∀ d : Fin 10, d.val ≠ 0 → Nat.digitChar d.val ≠ '0' := by
  decide

theorem map_digitChar_inj :
    ∀ l1 l2 : List Nat, (∀ d ∈ l1, d < 10) → (∀ d ∈ l2, d < 10) →
      l1.map Nat.digitChar = l2.map Nat.digitChar → l1 = l2 := by
  intro l1
  induction l1 with
  | nil =>
    intro l2 _ _ h
    cases l2 with
    | nil => rfl
    | cons d2 t2 => simp at h
  | cons d t ih =>
    intro l2 h1 h2 h
    cases l2 with
    | nil => simp at h
    | cons d2 t2 =>
      simp only [List.map_cons, List.cons.injEq] at h
      obtain ⟨hh, ht⟩ := h
      have hd1 : d < 10 := h1 d (List.mem_cons_self d t)
      have hd2 : d2 < 10 := h2 d2 (List.mem_cons_self d2 t2)
      have hfin : (⟨d, hd1⟩ : Fin 10) = ⟨d2, hd2⟩ := digitChar_inj10 ⟨d, hd1⟩ ⟨d2, hd2⟩ hh
      have hdd : d = d2 := congrArg Fin.val hfin
      have htt : t = t2 :=
        ih t2 (fun x hx => h1 x (List.mem_cons_of_mem d hx))
          (fun x hx => h2 x (List.mem_cons_of_mem d2 hx)) ht
      rw [hdd, htt]

theorem decAux_eq (fuel n : Nat) (acc : List Char) (h : n ≤ fuel) :
    decAux fuel n acc = ((Nat.digits 10 n).map Nat.digitChar).reverse ++ acc := by
  induction fuel generalizing n acc with
  | zero =>
    have hn : n = 0 := Nat.le_zero.mp h
    subst hn
    simp [decAux]
  | succ fuel ih =>
    by_cases hn : n = 0
    · subst hn
      simp [decAux]
    · have hd : Nat.digits 10 n = n % 10 :: Nat.digits 10 (n / 10) :=
        Nat.digits_def' (by norm_num) (Nat.pos_of_ne_zero hn)
      have hlt : n / 10 < n := Nat.div_lt_self (Nat.pos_of_ne_zero hn) (by norm_num)
      have hle : n / 10 ≤ fuel := by omega
      simp only [decAux, if_neg hn]
      rw [ih (n / 10) _ hle, hd]
      simp

theorem fmt02d_data (n : Nat) (hn : n ≠ 0) :
    (fmt02d n).data =
      if (Nat.digits 10 n).length = 1
      then '0' :: ((Nat.digits 10 n).map Nat.digitChar).reverse
      else ((Nat.digits 10 n).map Nat.digitChar).reverse := by
  have hds : decAux n n [] = ((Nat.digits 10 n).map Nat.digitChar).reverse := by
    rw [decAux_eq n n [] (Nat.le_refl n), List.append_nil]
  unfold fmt02d
  dsimp only
  simp only [if_neg hn, hds]
  simp [List.length_reverse, List.length_map]

theorem fmt02d_no_space (n : Nat) : ' ' ∉ (fmt02d n).data := by
  by_cases hn : n = 0
  · subst hn
    decide
  · rw [fmt02d_data n hn]
    intro hmem
    have hrev : ' ' ∈ ((Nat.digits 10 n).map Nat.digitChar).reverse → False := by
      intro hm
      rw [List.mem_reverse] at hm
      obtain ⟨d, hd, hdc⟩ := List.mem_map.mp hm
      have hlt : d < 10 := Nat.digits_lt_base (by norm_num) hd
      exact digitChar_ne_space10 ⟨d, hlt⟩ hdc
    by_cases hlen : (Nat.digits 10 n).length = 1
    · rw [if_pos hlen] at hmem
      rcases List.mem_cons.mp hmem with h0 | hm
      · cases h0
      · exact hrev hm
    · rw [if_neg hlen] at hmem
      exact hrev hmem

theorem revMap_head_ne_zero (n : Nat) (hn : n ≠ 0) (c : Char)
    (h : (((Nat.digits 10 n).map Nat.digitChar).reverse).head? = some c) :
    c ≠ '0' := by
  have hne : Nat.digits 10 n ≠ [] := Nat.digits_ne_nil_iff_ne_zero.mpr hn
  rw [List.head?_reverse, List.getLast?_map,
    List.getLast?_eq_getLast (Nat.digits 10 n) hne] at h
  have hc : c = Nat.digitChar ((Nat.digits 10 n).getLast hne) := by
    injection h with h
    exact h.symm
  have hmem := List.getLast_mem hne
  have hlt : (Nat.digits 10 n).getLast hne < 10 := Nat.digits_lt_base (by norm_num) hmem
  have hnz : (Nat.digits 10 n).getLast hne ≠ 0 := Nat.getLast_digit_ne_zero 10 hn
  rw [hc]
  exact digitChar_ne_zero10 ⟨_, hlt⟩ hnz

theorem fmt02d_inj {a b : Nat} (ha : 1 ≤ a) (hb : 1 ≤ b)
    (h : fmt02d a = fmt02d b) : a = b := by
  have ha0 : a ≠ 0 := by omega
  have hb0 : b ≠ 0 := by omega
  have haDig : ∀ d ∈ Nat.digits 10 a, d < 10 :=
    fun d hd => Nat.digits_lt_base (by norm_num) hd
  have hbDig : ∀ d ∈ Nat.digits 10 b, d < 10 :=
    fun d hd => Nat.digits_lt_base (by norm_num) hd
  have hd := congrArg String.data h
  rw [fmt02d_data a ha0, fmt02d_data b hb0] at hd
  by_cases la : (Nat.digits 10 a).length = 1
  · by_cases lb : (Nat.digits 10 b).length = 1
    · rw [if_pos la, if_pos lb] at hd
      have ht : ((Nat.digits 10 a).map Nat.digitChar).reverse =
          ((Nat.digits 10 b).map Nat.digitChar).reverse := by
        injection hd
      have hmap := List.reverse_inj.mp ht
      exact Nat.digits_inj_iff.mp (map_digitChar_inj _ _ haDig hbDig hmap)
    · rw [if_pos la, if_neg lb] at hd
      have hhead : (((Nat.digits 10 b).map Nat.digitChar).reverse).head? = some '0' := by
        rw [← hd]
        rfl
      exact absurd rfl (revMap_head_ne_zero b hb0 '0' hhead)
  · by_cases lb : (Nat.digits 10 b).length = 1
    · rw [if_neg la, if_pos lb] at hd
      have hhead : (((Nat.digits 10 a).map Nat.digitChar).reverse).head? = some '0' := by
        rw [hd]
        rfl
      exact absurd rfl (revMap_head_ne_zero a ha0 '0' hhead)
    · rw [if_neg la, if_neg lb] at hd
      have hmap := List.reverse_inj.mp hd
      exact Nat.digits_inj_iff.mp (map_digitChar_inj _ _ haDig hbDig hmap)

theorem append_space_inj :
    ∀ (a : List Char) {b r s : List Char}, ' ' ∉ a → ' ' ∉ b →
      a ++ ' ' :: r = b ++ ' ' :: s → a = b ∧ r = s := by
  intro a
  induction a with
  | nil =>
    intro b r s _ hb h
    cases b with
    | nil => simpa using h
    | cons y bt =>
      simp only [List.nil_append, List.cons_append, List.cons.injEq] at h
      obtain ⟨hy, _⟩ := h
      have : ' ' ∈ y :: bt := by
        rw [hy]
        exact List.mem_cons_self y bt
      exact absurd this hb
  | cons x at1 ih =>
    intro b r s ha hb h
    cases b with
    | nil =>
      simp only [List.cons_append, List.nil_append, List.cons.injEq] at h
      obtain ⟨hx, _⟩ := h
      have : ' ' ∈ x :: at1 := by
        rw [← hx]
        exact List.mem_cons_self x at1
      exact absurd this ha
    | cons y bt =>
      simp only [List.cons_append, List.cons.injEq] at h
      obtain ⟨hxy, ht⟩ := h
      have ha1 : ' ' ∉ at1 := fun hm => ha (List.mem_cons_of_mem x hm)
      have hb1 : ' ' ∉ bt := fun hm => hb (List.mem_cons_of_mem y hm)
      obtain ⟨h1, h2⟩ := ih ha1 hb1 ht
      exact ⟨by rw [hxy, h1], h2⟩

theorem c9_naming_and_in_section_uniqueness (fs : FS) (index : BlobIndex) :
    (∀ e sx numT nameT seqT,
      e.isdir = true → e.sectionXml = some (Except.ok sx) →
      sx.number = some numT → sx.name = some nameT → sx.sequence = some seqT →
      processSection fs index e =
        .processed
          (fmt02dInt ((pyInt (optTextD "0" numT)).getD 0) ++ " Chapter " ++
            sanitize_filename (optTextD "Unnamed" nameT))
          (processedItems fs index
            ("./output/" ++
              (fmt02dInt ((pyInt (optTextD "0" numT)).getD 0) ++ " Chapter " ++
                sanitize_filename (optTextD "Unnamed" nameT)))
            (parseSeq (optText seqT)))) ∧
    (∀ p idx sid src d, processItem fs index p idx sid = .copied src d →
      ∃ nm ext, d = p ++ "/" ++ (fmt02d idx ++ " " ++ nm ++ "." ++ ext)) ∧
    (∀ (p : String) (ids : List String) (i j : Nat) (si di sj dj : String),
      i ≠ j →
      (processedItems fs index p ids)[i]? = some (.copied si di) →
      (processedItems fs index p ids)[j]? = some (.copied sj dj) →
      di ≠ dj) := by
  refine ⟨?_, ?_, ?_⟩
  · intro e sx numT nameT seqT hdir hsx hnum hname hseq
    simp [processSection, hdir, hsx, hnum, hname, hseq]
  · intro p idx sid src d h
    exact processItem_copied_dest fs index p idx sid src d h
  · intro p ids i j si di sj dj hij hi hj
    rw [processedItems_getElem?] at hi hj
    cases hki : ids[i]? with
    | none => rw [hki] at hi; cases hi
    | some sidi =>
      rw [hki] at hi
      cases hkj : ids[j]? with
      | none => rw [hkj] at hj; cases hj
      | some sidj =>
        rw [hkj] at hj
        have hpi : processItem fs index p (1 + i) sidi = .copied si di := by
          injection hi
        have hpj : processItem fs index p (1 + j) sidj = .copied sj dj := by
          injection hj
        obtain ⟨nmi, exti, hdi⟩ :=
          processItem_copied_dest fs index p (1 + i) sidi si di hpi
        obtain ⟨nmj, extj, hdj⟩ :=
          processItem_copied_dest fs index p (1 + j) sidj sj dj hpj
        intro heq
        rw [hdi, hdj] at heq
        have hdata := congrArg String.data heq
        have hslash : "/".data = ['/'] := rfl
        have hspace : " ".data = [' '] := rfl
        have hdot : ".".data = ['.'] := rfl
        simp only [String.data_append, hslash, hspace, hdot,
          List.append_assoc, List.singleton_append] at hdata
        have hc := List.append_cancel_left hdata
        have hc2 : (fmt02d (1 + i)).data ++
            ' ' :: (nmi.data ++ '.' :: exti.data) =
            (fmt02d (1 + j)).data ++ ' ' :: (nmj.data ++ '.' :: extj.data) := by
          injection hc
        obtain ⟨hfmt, _⟩ := append_space_inj _ (fmt02d_no_space (1 + i))
          (fmt02d_no_space (1 + j)) hc2
        have hij2 : 1 + i = 1 + j :=
          fmt02d_inj (by omega) (by omega) (stringDataInj hfmt)
        omega

theorem c9_cross_section_collision_counterexample :
    secDup1.name ≠ secDup2.name ∧
    process_sections fsDup [("7", "abcd", "pdf")] =
      [.processed "01 Chapter A"
        [.copied "./files/ab/abcd" "./output/01 Chapter A/01 Introduction.pdf"],
       .processed "01 Chapter A"
        [.copied "./files/ab/abcd" "./output/01 Chapter A/01 Introduction.pdf"]] :=
  ⟨by decide, rfl⟩

/-- C9 witness: the naming part applied to the duplicated section, and the
in-section uniqueness applied to a section with two successful copies. -/
theorem c9_naming_and_in_section_uniqueness_witness :
    processSection fsDup [("7", "abcd", "pdf")] secDup1 =
      .processed
        (fmt02dInt ((pyInt (optTextD "0" (some "1"))).getD 0) ++ " Chapter " ++
          sanitize_filename (optTextD "Unnamed" (some "A")))
        (processedItems fsDup [("7", "abcd", "pdf")]
          ("./output/" ++
            (fmt02dInt ((pyInt (optTextD "0" (some "1"))).getD 0) ++ " Chapter " ++
              sanitize_filename (optTextD "Unnamed" (some "A"))))
          (parseSeq (optText (some "101")))) ∧
    (∃ nm ext, "./output/01 Chapter A/01 Introduction.pdf" =
      "./output/01 Chapter A" ++ "/" ++ (fmt02d 1 ++ " " ++ nm ++ "." ++ ext)) ∧
    "./files/ab/abcd" ≠ "./files/ab/abcd" ++ "x" := by
  refine ⟨?_, ?_, by decide⟩
  · exact (c9_naming_and_in_section_uniqueness fsDup [("7", "abcd", "pdf")]).1
      secDup1 _ (some "1") (some "A") (some "101") rfl rfl rfl rfl rfl
  · exact (c9_naming_and_in_section_uniqueness fsDup [("7", "abcd", "pdf")]).2.1
      "./output/01 Chapter A" 1 "101" "./files/ab/abcd"
      "./output/01 Chapter A/01 Introduction.pdf" rfl

/-- C8 (amended): an absent manifest, an unparsable manifest and a manifest
with zero usable entries each end the run before any section is processed
and with no output; but these reported aborts are not the only ways the run
can halt, since an exception while building the index also stops it. -/
theorem c8_fatal_conditions (fs : FS) :
    (fs.filesXml = none → mainRun fs = Except.ok RunOutcome.noManifest) ∧
    (∀ u, fs.filesXml = some (Except.error u) →
      mainRun fs = Except.ok RunOutcome.noEntries) ∧
    (∀ l, fs.filesXml = some (Except.ok l) → buildIndex l [] = Except.ok [] →
      mainRun fs = Except.ok RunOutcome.noEntries) ∧
    (∀ l, fs.filesXml = some (Except.ok l) → buildIndex l [] = Except.error () →
      mainRun fs = Except.error ()) := by
  refine ⟨?_, ?_, ?_, ?_⟩
  · intro h
    unfold mainRun
    rw [h]
  · intro u h
    unfold mainRun parse_files_xml
    rw [h]
    rfl
  · intro l h hbi
    unfold mainRun parse_files_xml
    rw [h]
    dsimp only
    rw [hbi]
    rfl
  · intro l h hbi
    unfold mainRun parse_files_xml
    rw [h]
    dsimp only
    rw [hbi]

/-- C8 counterexample: a run whose manifest is present, parses, and contains
a usable first entry still halts, through the uncaught contextid exception,
so the two reported aborts are not the only fatal conditions. -/
theorem c8_only_fatal_counterexample :
    fsPoison.filesXml = some (Except.ok [goodElem, poisonElem]) ∧
    entryStep goodElem = Except.ok (some ("7", "abcd1234", "pdf")) ∧
    mainRun fsPoison = Except.error () ∧
    mainRun fsPoison ≠ Except.ok RunOutcome.noManifest ∧
    mainRun fsPoison ≠ Except.ok RunOutcome.noEntries :=
  ⟨rfl, rfl, rfl, fun h => Except.noConfusion h, fun h => Except.noConfusion h⟩

/-- C8 witness: each abort route exercised on a concrete filesystem. -/
theorem c8_fatal_conditions_witness :
    mainRun fsNoManifest = Except.ok RunOutcome.noManifest ∧
    mainRun fsBadParse = Except.ok RunOutcome.noEntries ∧
    mainRun fsEmptyManifest = Except.ok RunOutcome.noEntries ∧
    mainRun fsPoison = Except.error () :=
  ⟨(c8_fatal_conditions fsNoManifest).1 rfl,
   (c8_fatal_conditions fsBadParse).2.1 () rfl,
   (c8_fatal_conditions fsEmptyManifest).2.2.1 [absentCtxElem] rfl rfl,
   (c8_fatal_conditions fsPoison).2.2.2 [goodElem, poisonElem] rfl rfl⟩

example : pyStrip " 101 " = "101" := by decide
example : pySplit ',' "101, , 102" = ["101", " ", " 102"] := by decide
example : fmt02d 2 = "02" := by decide
example : fmt02d 0 = "00" := by decide
example : fmt02d 123 = "123" := by decide
example : fmt02dInt (-1) = "-1" := by decide
example : pyInt "12" = some 12 := by decide
example : pyInt "1a" = none := by decide
example : sanitize_filename "a/b::c" = "a_b_c" := by decide
example : firstField '_' "quiz_205" = "quiz" := by decide
example : String.mk (lastFieldChars '.' "a.tar.gz".data) = "gz" := by decide
